import Mathlib

set_option maxRecDepth 8000

/-! Shallow embedding of `src/src/main.rs` of the receipt-processor
service: the scoring engine (the point computation of `process_receipt`
with its helpers `odd_date` and `time_check`) and the identifier-keyed
result store (`ID_MAP`, written in `process_receipt` and read in
`get_receipt_points`).

Modelling conventions:
* Rust `f64` values and arithmetic are modelled by exact fractions
  (`Frac`: integer numerator over natural denominator).  Every number
  reaching the arithmetic comes from a decimal literal in the receipt,
  which the model parses exactly; the `f64` literal `0.2` is modelled
  as the exact fraction `1/5`.
* Rust `usize` is modelled by `Nat`; the saturating `as usize` cast of
  an integral `f64` value is `rustAsUsize` (saturating at `0` and at
  `2 ^ 64 - 1`).
* `str::parse::<f64>` is modelled on its numeric grammar (optional
  sign, digits with an optional decimal dot, optional exponent).  The
  special forms `inf`/`nan` that Rust also accepts are modelled as
  parse failures; in the source those values make every comparison of
  the affected rules false, so there as well they contribute zero.
* `char::is_alphanumeric` is modelled on the ASCII range (core
  `Char.isAlphanum`); all claims exercise ASCII retailer names only.
* The `uuid::Uuid::new_v4` identifier generator is an external
  collaborator; the generated identifier is an argument of
  `process_receipt`.
* `RwLock` acquisition always succeeds in the model: the lock can only
  be poisoned by a panicking holder and no critical section of the
  source panics, so the poisoned-lock fallback branches are
  unreachable.
-/

/-- Exact fraction, the model of a finite Rust `f64` value.  Every
fraction constructed by the embedding has a positive denominator. -/
structure Frac where
  num : Int
  den : Nat
deriving DecidableEq

/-- Embed an integer as a fraction. -/
def Frac.ofInt (n : Int) : Frac := ⟨n, 1⟩

/-- Multiplication (models `f64` multiplication). -/
def Frac.mul (x y : Frac) : Frac := ⟨x.num * y.num, x.den * y.den⟩

/-- Subtraction (models `f64` subtraction). -/
def Frac.sub (x y : Frac) : Frac :=
  ⟨x.num * (y.den : Int) - y.num * (x.den : Int), x.den * y.den⟩

/-- Division (models `f64` division); the sign is kept on the numerator
so that the denominator stays nonnegative. -/
def Frac.div (x y : Frac) : Frac :=
  if 0 ≤ y.num then ⟨x.num * (y.den : Int), x.den * y.num.toNat⟩
  else ⟨-(x.num * (y.den : Int)), x.den * (-y.num).toNat⟩

/-- Truncation toward zero (models `f64::trunc`), as an integer. -/
def Frac.trunc (x : Frac) : Int := Int.tdiv x.num (x.den : Int)

/-- Ceiling (models `f64::ceil`), as an integer. -/
def Frac.ceil (x : Frac) : Int := -(Int.fdiv (-x.num) (x.den : Int))

/-- Remainder (models the Rust `%` operator on `f64`, which truncates
the quotient toward zero): `x - y * trunc (x / y)`. -/
def Frac.rem (x y : Frac) : Frac :=
  Frac.sub x (Frac.mul y (Frac.ofInt (Frac.trunc (Frac.div x y))))

/-- Zero test (models the `f64` comparison `== 0.0`); sound because
every fraction built by the embedding has a positive denominator. -/
def Frac.isZero (x : Frac) : Bool := x.num == 0

/-- Value of a fraction as a rational number, for specification
statements. -/
def Frac.toRat (x : Frac) : ℚ := (x.num : ℚ) / (x.den : ℚ)

/-- Models Rust `char::is_alphanumeric` on the ASCII range (the full
Unicode Alphabetic/Number classification is outside the model; every
claim exercises ASCII retailer names only). -/
def rustIsAlphanumeric (c : Char) : Bool := c.isAlphanum

/-- Models Rust `char::is_whitespace`: the Unicode White_Space
property. -/
def rustIsWhitespace (c : Char) : Bool :=
  let n := c.toNat
  decide (9 ≤ n ∧ n ≤ 13) || decide (n = 32) || decide (n = 133) ||
    decide (n = 160) || decide (n = 5760) || decide (8192 ≤ n ∧ n ≤ 8202) ||
    decide (n = 8232) || decide (n = 8233) || decide (n = 8239) ||
    decide (n = 8287) || decide (n = 12288)

/-- Models Rust `str::trim`: drop leading and trailing whitespace. -/
def rustTrim (l : List Char) : List Char :=
  ((l.dropWhile rustIsWhitespace).reverse.dropWhile rustIsWhitespace).reverse

/-- Byte count of the UTF-8 encoding of one character. -/
def utf8CharLen (c : Char) : Nat :=
  if c.toNat < 128 then 1
  else if c.toNat < 2048 then 2
  else if c.toNat < 65536 then 3
  else 4

/-- Models Rust `str::len`: the UTF-8 byte length of a string. -/
def utf8Len (l : List Char) : Nat := (l.map utf8CharLen).sum

/-- Models Rust `str::split` with a one-character pattern. -/
def splitChar (sep : Char) : List Char → List (List Char)
  | [] => [[]]
  | c :: rest =>
    if c = sep then [] :: splitChar sep rest
    else
      match splitChar sep rest with
      | [] => [[c]]
      | h :: t => (c :: h) :: t

/-- Numeric value of a digit string (most significant digit first). -/
def digitsVal (l : List Char) : Nat :=
  l.foldl (fun a c => 10 * a + (c.toNat - 48)) 0

/-- Models `str::parse` for Rust unsigned integers with the given
exclusive bound (`2 ^ 32` for `u32`, `2 ^ 64` for `usize`): an optional
leading plus sign, then one or more decimal digits, rejecting values
outside the type's range. -/
def parseUnsigned (l : List Char) (bound : Nat) : Option Nat :=
  let digits := match l with
    | '+' :: rest => rest
    | _ => l
  if digits ≠ [] ∧ digits.all Char.isDigit then
    let v := digitsVal digits
    if v < bound then some v else none
  else none

/-- Split at the first decimal dot, when present. -/
def splitDot : List Char → List Char × Option (List Char)
  | [] => ([], none)
  | c :: rest =>
    if c = '.' then ([], some rest)
    else
      let p := splitDot rest
      (c :: p.1, p.2)

/-- Split at the first exponent marker `e`/`E`, when present. -/
def splitExpMark : List Char → List Char × Option (List Char)
  | [] => ([], none)
  | c :: rest =>
    if c = 'e' ∨ c = 'E' then ([], some rest)
    else
      let p := splitExpMark rest
      (c :: p.1, p.2)

/-- Strip one optional leading sign; `true` means negative. -/
def stripSign : List Char → Bool × List Char
  | '+' :: rest => (false, rest)
  | '-' :: rest => (true, rest)
  | l => (false, l)

/-- Mantissa of the `f64` grammar (`digits`, `digits.digits?` or
`.digits`, with at least one digit overall), as an exact fraction. -/
def parseMantissa (l : List Char) : Option Frac :=
  let p := splitDot l
  match p.2 with
  | none =>
    if p.1 ≠ [] ∧ p.1.all Char.isDigit then some ⟨(digitsVal p.1 : Int), 1⟩
    else none
  | some fp =>
    if (p.1 ≠ [] ∨ fp ≠ []) ∧ p.1.all Char.isDigit ∧ fp.all Char.isDigit then
      some ⟨(digitsVal p.1 * 10 ^ fp.length + digitsVal fp : Int), 10 ^ fp.length⟩
    else none

/-- Exponent of the `f64` grammar: optional sign, one or more digits. -/
def parseExponent (l : List Char) : Option Int :=
  let s := stripSign l
  if s.2 ≠ [] ∧ s.2.all Char.isDigit then
    some (if s.1 then -(digitsVal s.2 : Int) else (digitsVal s.2 : Int))
  else none

/-- Scale a fraction by a power of ten (exponent application). -/
def scalePow10 (f : Frac) (e : Int) : Frac :=
  if 0 ≤ e then ⟨f.num * 10 ^ e.toNat, f.den⟩
  else ⟨f.num, f.den * 10 ^ (-e).toNat⟩

/-- Models `str::parse::<f64>` on the numeric grammar, returning the
exact decimal value (`inf`/`nan` forms are modelled as failures, see
the header comment). -/
def parseF64 (s : String) : Option Frac :=
  let sg := stripSign s.data
  let body := splitExpMark sg.2
  match parseMantissa body.1, body.2 with
  | some m, none => some (if sg.1 then ⟨-m.num, m.den⟩ else m)
  | some m, some ex =>
    match parseExponent ex with
    | some e =>
      let v := scalePow10 m e
      some (if sg.1 then ⟨-v.num, v.den⟩ else v)
    | none => none
  | none, _ => none

/-- Models the `Item` struct (`shortDescription` and `price`). -/
structure Item where
  desc : String
  price : String
deriving DecidableEq

/-- Models the `Receipt` struct. -/
structure Receipt where
  retailer : String
  date : String
  time : String
  items : List Item
  total : String
deriving DecidableEq

/-- Retailer rule of `process_receipt`: one point per alphanumeric
character of the retailer name. -/
def alphanum_points (r : Receipt) : Nat :=
  (r.retailer.data.filter rustIsAlphanumeric).length

/-- Round-dollar and quarter-multiple rules of `process_receipt`:
`50` if the parsed total has zero fractional part, and `25` if
`(total * 100.0) % 25.0 == 0.0`; an unparsable total yields `(0, 0)`. -/
def round_quarter (total : String) : Nat × Nat :=
  match parseF64 total with
  | some amount =>
    (if Frac.isZero (Frac.sub amount (Frac.ofInt (Frac.trunc amount))) then 50
     else 0,
     if Frac.isZero
         (Frac.rem (Frac.mul amount (Frac.ofInt 100)) (Frac.ofInt 25)) then 25
     else 0)
  | none => (0, 0)

/-- Saturating Rust cast `as usize` from an integral value. -/
def rustAsUsize (z : Int) : Nat := if z < 0 then 0 else min z.toNat (2 ^ 64 - 1)

/-- Contribution of one item under the description-length rule of
`process_receipt`: if the price parses and the trimmed description's
byte length is a multiple of 3, then `ceil(price * 0.2) as usize`,
else `0`. -/
def item_desc_points (it : Item) : Nat :=
  match parseF64 it.price with
  | some price =>
    if utf8Len (rustTrim it.desc.data) % 3 = 0 then
      rustAsUsize (Frac.ceil (Frac.mul price ⟨1, 5⟩))
    else 0
  | none => 0

/-- Item loop of `process_receipt`: the accumulator starts from
`5 * (items.len() / 2)` and each item whose price parses and whose
trimmed description's byte length is a multiple of 3 adds
`ceil(price * 0.2) as usize`. -/
def item_points (r : Receipt) : Nat :=
  r.items.foldl
    (fun acc it =>
      match parseF64 it.price with
      | some price =>
        if utf8Len (rustTrim it.desc.data) % 3 = 0 then
          acc + rustAsUsize (Frac.ceil (Frac.mul price ⟨1, 5⟩))
        else acc
      | none => acc)
    (5 * (r.items.length / 2))

/-- Models `odd_date`: the third hyphen-separated field of the date,
parsed as `usize`, is odd. -/
def odd_date (s : String) : Bool :=
  match (splitChar '-' s.data).get? 2 with
  | some dayChars =>
    match parseUnsigned dayChars (2 ^ 64) with
    | some day => day % 2 != 0
    | none => false
  | none => false

/-- Models `time_check`, faithful to the source including the
`minute == 0` comparison on the `hour == 15` branch and the trivially
true `minute >= 0` comparison on the `hour == 14` branch. -/
def time_check (s : String) : Bool :=
  match (splitChar ':' s.data).get? 0, (splitChar ':' s.data).get? 1 with
  | some hourChars, some minuteChars =>
    match parseUnsigned hourChars (2 ^ 32), parseUnsigned minuteChars (2 ^ 32) with
    | some hour, some minute =>
      (hour == 14 && decide (minute ≥ 0)) || (hour == 15 && minute == 0) ||
        (hour == 16 && minute == 0)
    | _, _ => false
  | _, _ => false

/-- Point total computed by `process_receipt`: the sum
`alphanum + round + quarter + item_points + odd + time`. -/
def score_receipt (r : Receipt) : Nat :=
  alphanum_points r + (round_quarter r.total).1 + (round_quarter r.total).2 +
    item_points r + (if odd_date r.date then 6 else 0) +
    (if time_check r.time then 10 else 0)

/-- Model of the `ID_MAP` hash map: an association list where the most
recent insertion comes first, so lookup sees the latest write, as with
`HashMap::insert`. -/
abbrev Store := List (String × String)

/-- Models `HashMap::insert` (last write wins). -/
def Store.put (st : Store) (id v : String) : Store := (id, v) :: st

/-- Models `HashMap::get`. -/
def Store.get : Store → String → Option String
  | [], _ => none
  | (k, v) :: rest, id => if k = id then some v else Store.get rest id

/-- Models the `process_receipt` handler: score the receipt, store the
stringified point total under the freshly generated identifier (passed
in as an argument, the uuid generator being an external collaborator)
and return that identifier. -/
def process_receipt (st : Store) (id : String) (r : Receipt) : Store × String :=
  (Store.put st id (toString (score_receipt r)), id)

/-- Models the `get_receipt_points` handler: look the identifier up,
defaulting to `"Unknown"`.  The store is not modified: the handler
takes the write lock but only ever reads the map.  The poisoned-lock
fallback of the source (returning lowercase `"unknown"`) is
unreachable in the model (see the header comment). -/
def get_receipt_points (st : Store) (id : String) : Store × String :=
  (st, (Store.get st id).getD "Unknown")

/-- One request handled by the service. -/
inductive Op where
  | process (id : String) (r : Receipt)
  | query (id : String)

/-- Whether an operation writes the given identifier. -/
def Op.writesId : Op → String → Bool
  | .process i _, id => i == id
  | .query _, _ => false

/-- Store state after one operation. -/
def applyOp (st : Store) : Op → Store
  | .process id r => (process_receipt st id r).1
  | .query id => (get_receipt_points st id).1

/-- Store state after a sequence of operations. -/
def runOps (st : Store) (ops : List Op) : Store := ops.foldl applyOp st

/-- Concrete scenario 1 of the specification: the classic Target
receipt. -/
def targetReceipt : Receipt :=
  { retailer := "Target"
    date := "2022-01-01"
    time := "13:01"
    items :=
      [⟨"Mountain Dew 12PK", "6.49"⟩,
       ⟨"Emils Cheese Pizza", "12.25"⟩,
       ⟨"Knorr Creamy Chicken", "1.26"⟩,
       ⟨"Doritos Nacho Cheese", "3.35"⟩,
       ⟨"   Klarbrunn 12-PK 12 FL OZ  ", "12.00"⟩]
    total := "35.35" }

/-- Rounding to the nearest integer, half up: the reading of "the
amount in cents, rounded" used by the quarter-multiple claim. -/
def roundHalfUp (x : Frac) : Int :=
  Int.fdiv (2 * x.num + (x.den : Int)) (2 * (x.den : Int))

/-- Lookup after an insertion under the same identifier. -/
theorem Store.get_put_same (st : Store) (id v : String) :
    Store.get (Store.put st id v) id = some v := by
  simp [Store.put, Store.get]

/-- Lookup after an insertion under a different identifier. -/
theorem Store.get_put_other (st : Store) (id j v : String) (h : id ≠ j) :
    Store.get (Store.put st id v) j = Store.get st j := by
  simp [Store.put, Store.get, h]

/-- A run of operations none of which writes `id` leaves the binding of
`id` unchanged. -/
theorem get_runOps_no_write (ops : List Op) (st : Store) (id : String)
    (h : ∀ o ∈ ops, Op.writesId o id = false) :
    Store.get (runOps st ops) id = Store.get st id := by
  induction ops generalizing st with
  | nil => rfl
  | cons o rest ih =>
    have ho := h o (List.mem_cons_self o rest)
    have hrest : ∀ x ∈ rest, Op.writesId x id = false :=
      fun x hx => h x (List.mem_cons_of_mem o hx)
    cases o with
    | process i r =>
      have hne : i ≠ id := by simpa [Op.writesId] using ho
      show Store.get (runOps (applyOp st (Op.process i r)) rest) id
          = Store.get st id
      rw [ih _ hrest]
      exact Store.get_put_other st i id _ hne
    | query j =>
      show Store.get (runOps (applyOp st (Op.query j)) rest) id
          = Store.get st id
      rw [ih _ hrest]
      rfl

/-- The item loop equals the pair points plus the sum of the per-item
description-rule contributions. -/
theorem item_points_eq (r : Receipt) :
    item_points r
      = 5 * (r.items.length / 2) + (r.items.map item_desc_points).sum := by
  have step : ∀ (l : List Item) (a : Nat),
      l.foldl
        (fun acc it =>
          match parseF64 it.price with
          | some price =>
            if utf8Len (rustTrim it.desc.data) % 3 = 0 then
              acc + rustAsUsize (Frac.ceil (Frac.mul price ⟨1, 5⟩))
            else acc
          | none => acc) a = a + (l.map item_desc_points).sum := by
    intro l
    induction l with
    | nil => intro a; simp
    | cons x xs ih =>
      intro a
      simp only [List.foldl_cons, List.map_cons, List.sum_cons]
      cases hp : parseF64 x.price with
      | none => rw [ih]; simp [item_desc_points, hp]
      | some price =>
        simp only [hp]
        by_cases hl : utf8Len (rustTrim x.desc.data) % 3 = 0
        · rw [if_pos hl, ih]
          simp [item_desc_points, hp, hl]
          omega
        · rw [if_neg hl, ih]
          simp [item_desc_points, hp, hl]
  exact step r.items _

/-- A mantissa produced by the parser has a positive denominator. -/
theorem parseMantissa_den_pos (l : List Char) (q : Frac)
    (h : parseMantissa l = some q) : 0 < q.den := by
  unfold parseMantissa at h
  dsimp only at h
  split at h
  · split at h
    · cases h; exact Nat.one_pos
    · cases h
  · split at h
    · cases h; exact pow_pos (by norm_num) _
    · cases h

/-- Scaling by a power of ten keeps the denominator positive. -/
theorem scalePow10_den_pos (f : Frac) (e : Int) (h : 0 < f.den) :
    0 < (scalePow10 f e).den := by
  unfold scalePow10
  split
  · exact h
  · exact Nat.mul_pos h (pow_pos (by norm_num) _)

/-- Every fraction produced by the `f64` parser has a positive
denominator. -/
theorem parseF64_den_pos (s : String) (q : Frac) (h : parseF64 s = some q) :
    0 < q.den := by
  unfold parseF64 at h
  dsimp only at h
  split at h
  · rename_i m hm _
    have hmpos := parseMantissa_den_pos _ m hm
    split at h <;> (cases h; simpa using hmpos)
  · rename_i m ex hm _
    split at h
    · rename_i e _
      have hmpos := parseMantissa_den_pos _ m hm
      have hv := scalePow10_den_pos m e hmpos
      split at h <;> (cases h; simpa using hv)
    · cases h
  · cases h

/-- Characterisation of the source's quarter-multiple check: for a
fraction with positive denominator, `(q * 100.0) % 25.0 == 0.0` holds
exactly when the value of `q * 100` is an integer multiple of 25. -/
theorem quarter_cond_iff (q : Frac) (hden : 0 < q.den) :
    (Frac.isZero (Frac.rem (Frac.mul q (Frac.ofInt 100)) (Frac.ofInt 25)) = true)
      ↔ ∃ k : ℤ, Frac.toRat q * 100 = 25 * (k : ℚ) := by
  have hd0 : ((q.den : ℚ)) ≠ 0 := Nat.cast_ne_zero.mpr hden.ne'
  simp only [Frac.isZero, Frac.rem, Frac.sub, Frac.mul, Frac.div, Frac.ofInt,
    Frac.trunc, Frac.toRat, beq_iff_eq]
  norm_num
  constructor
  · intro h0
    refine ⟨(q.num * 100).tdiv ((q.den : Int) * 25), ?_⟩
    have h0Q : (q.num : ℚ) * 100 -
        25 * (((q.num * 100).tdiv ((q.den : Int) * 25) : Int) : ℚ) * (q.den : ℚ)
          = 0 := by
      exact_mod_cast congrArg (fun z : Int => (z : ℚ)) h0
    field_simp
    linear_combination h0Q
  · rintro ⟨k, hk⟩
    have hQ : (q.num : ℚ) * 100 = 25 * (k : ℚ) * (q.den : ℚ) := by
      field_simp at hk
      linear_combination hk
    have hint : q.num * 100 = 25 * k * (q.den : Int) := by exact_mod_cast hQ
    have hT : (q.num * 100).tdiv ((q.den : Int) * 25) = k := by
      rw [hint, show 25 * k * (q.den : Int) = k * ((q.den : Int) * 25) by ring]
      exact Int.mul_tdiv_cancel k
        (by positivity : (0 : Int) < (q.den : Int) * 25).ne'
    rw [hT]
    linarith [hint]

/-- A fraction with a negative rational value has a negative
numerator. -/
theorem num_neg_of_toRat_neg (x : Frac) (h : Frac.toRat x < 0) : x.num < 0 := by
  by_contra hn
  push_neg at hn
  have : 0 ≤ Frac.toRat x :=
    div_nonneg (by exact_mod_cast hn) (by positivity)
  linarith

/-- The ceiling of a fraction with nonpositive numerator is
nonpositive. -/
theorem ceil_nonpos_of_num_nonpos (x : Frac) (h : x.num ≤ 0) :
    Frac.ceil x ≤ 0 := by
  unfold Frac.ceil
  have h1 : 0 ≤ Int.fdiv (-x.num) (x.den : Int) :=
    Int.fdiv_nonneg (by omega) (by positivity)
  omega

/-- The saturating unsigned cast sends nonpositive values to zero. -/
theorem rustAsUsize_eq_zero (z : Int) (h : z ≤ 0) : rustAsUsize z = 0 := by
  unfold rustAsUsize
  rcases lt_or_eq_of_le h with h1 | h1
  · rw [if_pos h1]
  · rw [if_neg (by omega)]
    simp [← h1]

/-- C1: evaluation of the afternoon-time rule at the divergence point.
The source awards 0 points at purchase time "15:30", because
`time_check` compares `minute == 0` on its `hour == 15` branch, while
the claim (hour 15 at any minute scores 10) requires the rule to fire
there; the boundary cases "14:59", "16:00" and "16:01" agree with the
claim. -/
theorem time_check_hour15_divergence :
    time_check "15:30" = false ∧ time_check "14:59" = true ∧
      time_check "16:00" = true ∧ time_check "16:01" = false := by
  decide

/-- C2: the classic Target receipt (retailer "Target", date
"2022-01-01", time "13:01", total "35.35" and its five items) scores
exactly 28 points. -/
theorem target_receipt_scores_28 : score_receipt targetReceipt = 28 := by
  decide

/-- C3: round-trip — after a `put`, every later `get` of the same
identifier returns the stored score, across an arbitrary interleaving
of further requests none of which writes that identifier (identifiers
are fresh uuids, per the specification's uniqueness assumption). -/
theorem put_get_roundtrip (st : Store) (id s : String) (ops : List Op)
    (hfresh : ∀ o ∈ ops, Op.writesId o id = false) :
    (get_receipt_points (runOps (Store.put st id s) ops) id).2 = s := by
  have h := get_runOps_no_write ops (Store.put st id s) id hfresh
  simp [get_receipt_points, h, Store.get_put_same]

/-- C3 witness: a concrete round-trip through an interleaved query and
an unrelated process request. -/
theorem put_get_roundtrip_witness :
    (get_receipt_points
        (runOps (Store.put [] "id1" "28")
          [Op.query "id1", Op.process "id2" targetReceipt]) "id1").2 = "28" :=
  put_get_roundtrip [] "id1" "28"
    [Op.query "id1", Op.process "id2" targetReceipt] (by decide)

/-- C4: an identifier that was never written is reported by a
successful response carrying exactly the sentinel "Unknown"
(capital U). -/
theorem unknown_before_write (ops : List Op) (id : String)
    (hfresh : ∀ o ∈ ops, Op.writesId o id = false) :
    (get_receipt_points (runOps [] ops) id).2 = "Unknown" := by
  have h := get_runOps_no_write ops [] id hfresh
  simp [get_receipt_points, h, Store.get]

/-- C4 witness: a concrete query of a never-written identifier after
unrelated traffic. -/
theorem unknown_before_write_witness :
    (get_receipt_points
        (runOps [] [Op.process "id2" targetReceipt, Op.query "id9"]) "id1").2
      = "Unknown" :=
  unknown_before_write [Op.process "id2" targetReceipt, Op.query "id9"] "id1"
    (by decide)

/-- C5 counterexample: an item whose trimmed description has character
length 2 — not a multiple of 3 — but UTF-8 byte length 3 still earns
`ceil(5.00 * 0.2) = 1` point, because the source measures `len()` in
bytes; so the claim's character-length criterion does not describe the
code. -/
theorem desc_char_length_cex :
    (rustTrim ("éa".data)).length % 3 ≠ 0 ∧
      parseF64 "5.00" = some ⟨500, 100⟩ ∧
      item_desc_points ⟨"éa", "5.00"⟩ = 1 := by
  decide

/-- C5 (amended): the description rule adds `ceil(price * 0.2)` points
(as a saturating unsigned cast) exactly when the trimmed description's
UTF-8 byte length is a multiple of 3 (byte length 0 counts and fires)
and the price parses; an item with an unparsable price contributes 0
for this rule, and the loop total is the pair points plus the
independent sum of per-item contributions, so the other items are
unaffected. -/
theorem item_desc_rule_bytes (it : Item) (r : Receipt) :
    (∀ p, parseF64 it.price = some p →
        item_desc_points it =
          if utf8Len (rustTrim it.desc.data) % 3 = 0 then
            rustAsUsize (Frac.ceil (Frac.mul p ⟨1, 5⟩))
          else 0) ∧
      (parseF64 it.price = none → item_desc_points it = 0) ∧
      item_points r
        = 5 * (r.items.length / 2) + (r.items.map item_desc_points).sum := by
  refine ⟨?_, ?_, item_points_eq r⟩
  · intro p hp
    simp [item_desc_points, hp]
  · intro hp
    simp [item_desc_points, hp]

/-- C5 witness: the Emils Cheese Pizza item (trimmed byte length 18,
price 12.25) earns `ceil(12.25 * 0.2) = 3` points. -/
theorem item_desc_rule_bytes_witness :
    item_desc_points ⟨"Emils Cheese Pizza", "12.25"⟩ = 3 := by
  have h := (item_desc_rule_bytes ⟨"Emils Cheese Pizza", "12.25"⟩
    targetReceipt).1 ⟨1225, 100⟩ (by decide)
  rw [h]
  decide

/-- C6 counterexample: for total "1.001" the exact amount in cents is
100.1, which rounds to 100, a multiple of 25 — the claim's condition
fires — yet the source's check `(total * 100.0) % 25.0 == 0.0` does
not round, so the rule contributes 0. -/
theorem quarter_rounded_cents_cex :
    parseF64 "1.001" = some ⟨1001, 1000⟩ ∧
      roundHalfUp (Frac.mul ⟨1001, 1000⟩ (Frac.ofInt 100)) % 25 = 0 ∧
      (round_quarter "1.001").2 = 0 := by
  decide

/-- C6 (amended): for a parsable total the quarter-multiple rule
contributes exactly 25 points when the exact total amount is an
integer multiple of 0.25 — equivalently, the exact (unrounded) cents
value is an integer divisible by 25 — and 0 otherwise; the rule is
independent of the round-dollar rule, and the total "9.00" earns both
bonuses (75 combined). -/
theorem quarter_rule_exact_multiple (t : String) (q : Frac)
    (h : parseF64 t = some q) :
    ((round_quarter t).2 = 25 ↔ ∃ k : ℤ, Frac.toRat q * 100 = 25 * (k : ℚ)) ∧
      ((round_quarter t).2 = 25 ∨ (round_quarter t).2 = 0) ∧
      round_quarter "9.00" = (50, 25) := by
  have hden := parseF64_den_pos t q h
  have hcond := quarter_cond_iff q hden
  have hq : (round_quarter t).2
      = if Frac.isZero
            (Frac.rem (Frac.mul q (Frac.ofInt 100)) (Frac.ofInt 25)) then 25
        else 0 := by
    simp [round_quarter, h]
  refine ⟨?_, ?_, by decide⟩
  · rw [hq]
    constructor
    · intro h25
      apply hcond.mp
      by_contra hc
      rw [if_neg hc] at h25
      exact absurd h25 (by norm_num)
    · intro hex
      rw [if_pos (hcond.mpr hex)]
  · rw [hq]
    split
    · exact Or.inl rfl
    · exact Or.inr rfl

/-- C6 witness: the total "0.25" is a multiple of 0.25 and earns the
25-point bonus. -/
theorem quarter_rule_exact_multiple_witness :
    (round_quarter "0.25").2 = 25 := by
  have h := quarter_rule_exact_multiple "0.25" ⟨25, 100⟩ (by decide)
  apply h.1.mpr
  refine ⟨1, ?_⟩
  norm_num [Frac.toRat]

/-- C7: an unparsable total makes the round-dollar and quarter-multiple
rules both contribute exactly 0, and the (total, never-failing) scoring
function still returns the plain sum of the remaining rules. -/
theorem total_unparsable_zero (r : Receipt) (h : parseF64 r.total = none) :
    round_quarter r.total = (0, 0) ∧
      score_receipt r
        = alphanum_points r + item_points r +
            (if odd_date r.date then 6 else 0) +
            (if time_check r.time then 10 else 0) := by
  have h1 : round_quarter r.total = (0, 0) := by simp [round_quarter, h]
  refine ⟨h1, ?_⟩
  simp [score_receipt, h1]

/-- C7 witness: a concrete receipt with the unparsable total "oops"
still gets a score (its 1 retailer point). -/
theorem total_unparsable_zero_witness :
    round_quarter "oops" = (0, 0) ∧
      score_receipt ⟨"A", "2022-01-02", "10:00", [], "oops"⟩ = 1 := by
  have h := total_unparsable_zero ⟨"A", "2022-01-02", "10:00", [], "oops"⟩
    (by decide)
  refine ⟨h.1, ?_⟩
  rw [h.2]
  decide

/-- C8: an identifier returned by a process call is present in the
store from that moment on (bound to the stringified score), and a
stored value never changes across further requests that do not write
that identifier (identifiers are fresh uuids, per the specification's
uniqueness assumption). -/
theorem store_write_once (st : Store) (id v : String) (r : Receipt)
    (ops : List Op) (hfresh : ∀ o ∈ ops, Op.writesId o id = false) :
    Store.get (process_receipt st id r).1 id
        = some (toString (score_receipt r)) ∧
      (Store.get st id = some v → Store.get (runOps st ops) id = some v) := by
  constructor
  · exact Store.get_put_same st id _
  · intro hv
    rw [get_runOps_no_write ops st id hfresh]
    exact hv

/-- C8 witness: processing the Target receipt under identifier "id7"
makes "id7" present, bound to "28". -/
theorem store_write_once_witness :
    Store.get (process_receipt [] "id7" targetReceipt).1 "id7" = some "28" := by
  have h := (store_write_once [] "id7" "28" targetReceipt [] (by decide)).1
  have hs : toString (score_receipt targetReceipt) = "28" := by decide
  rw [hs] at h
  exact h

/-- C9: a query leaves the store completely unchanged — the same state,
and the same mapping for every identifier. -/
theorem query_frame (st : Store) (id : String) :
    (get_receipt_points st id).1 = st ∧
      ∀ j, Store.get (get_receipt_points st id).1 j = Store.get st j :=
  ⟨rfl, fun _ => rfl⟩

/-- C10: an item whose price parses to a negative number and whose
trimmed description length is a multiple of 3 still contributes exactly
0 points — the nonpositive ceiling saturates to 0 in the unsigned
cast — and every score is a well-defined nonnegative integer. -/
theorem negative_price_contributes_zero (it : Item) (p : Frac)
    (hp : parseF64 it.price = some p) (hneg : Frac.toRat p < 0)
    (hlen : utf8Len (rustTrim it.desc.data) % 3 = 0) :
    item_desc_points it = 0 ∧ ∀ r : Receipt, 0 ≤ score_receipt r := by
  refine ⟨?_, fun r => Nat.zero_le _⟩
  have hnum : p.num < 0 := num_neg_of_toRat_neg p hneg
  simp only [item_desc_points, hp]
  rw [if_pos hlen]
  apply rustAsUsize_eq_zero
  apply ceil_nonpos_of_num_nonpos
  show p.num * 1 ≤ 0
  omega

/-- C10 witness: an item priced "-5.00" with description "abc" (length
3) contributes 0 points. -/
theorem negative_price_contributes_zero_witness :
    item_desc_points ⟨"abc", "-5.00"⟩ = 0 :=
  (negative_price_contributes_zero ⟨"abc", "-5.00"⟩ ⟨-500, 100⟩ (by decide)
    (by norm_num [Frac.toRat]) (by decide)).1
